import Mathlib

/-!
Verification of the Yahrzeit list processor (`src/main.py`) against its
natural-language specification.

The development is a shallow embedding of the date-bucketing and
cascading-grouping engine of `main.py`:

* dates are modelled by their proleptic-Gregorian ordinal (the value of
  the Python `datetime.toordinal()` value, day 1 = 0001-01-01), carried as an `Int`;
* `identify_complete_weeks_for_month`, `parse_date`, `format_date`,
  `extract_month_info_from_filename`, `find_middle_month_from_files`,
  `group_data_by_date_and_name` and the sorting step of
  `create_weekly_dataframes` are translated function by function;
* pandas records are Lean structures of eleven string fields, and a weekly
  table is a `List (List String)` in the fixed column order used by the
  grouping transform.
-/

/-! ## Calendar arithmetic (Python `datetime`) -/

/-- Gregorian leap-year test, as used by `datetime` (and `calendar.isleap`). -/
def isLeap (y : Nat) : Bool :=
  y % 4 == 0 && (y % 100 != 0 || y % 400 == 0)

/-- Number of days of month `m` (1-12) of year `y`, per `datetime`. -/
def daysInMonth (y m : Nat) : Nat :=
  if m = 2 then (if isLeap y then 29 else 28)
  else if m = 4 ∨ m = 6 ∨ m = 9 ∨ m = 11 then 30
  else 31

/-- Days in year `y` strictly before month `m`: the sum of the lengths of
months `1 .. m-1` (CPython `_days_before_month`). -/
def daysBeforeMonth (y m : Nat) : Nat :=
  ((List.range (m - 1)).map (fun k => daysInMonth y (k + 1))).sum

/-- Days before January 1 of year `y` (CPython `_days_before_year`):
`(y-1)*365 + (y-1)/4 - (y-1)/100 + (y-1)/400`. -/
def daysBeforeYear (y : Nat) : Int :=
  let py : Int := (y : Int) - 1
  py * 365 + py / 4 - py / 100 + py / 400

/-- Embedding of `datetime(y, m, d).toordinal()`: day number in the proleptic Gregorian
calendar, day 1 = 0001-01-01.  For `y ≥ 1` this is CPython `_ymd2ord`. -/
def toOrdinal (y m d : Nat) : Int :=
  daysBeforeYear y + (daysBeforeMonth y m : Int) + (d : Int)

/-- Python `datetime.weekday()` on an ordinal: Monday = 0 .. Sunday = 6.
0001-01-01 (ordinal 1) is a Monday.  `Int.emod` agrees with Python `%` on a
positive modulus. -/
def pyWeekday (o : Int) : Int :=
  (o - 1) % 7

/-! ## Week Partitioner (`identify_complete_weeks_for_month`) -/

/-- The `while current_saturday <= last_friday` loop of
`identify_complete_weeks_for_month`: emit `(sat, sat+6)` pairs stepping by 7. -/
def weeksFrom (sat lastFriday : Int) : List (Int × Int) :=
  if sat ≤ lastFriday then (sat, sat + 6) :: weeksFrom (sat + 7) lastFriday
  else []
termination_by (lastFriday + 1 - sat).toNat
decreasing_by omega

/-- The last calendar day of the target month: first day of the following
month minus one day (the `target_month == 12` branch of the source). -/
def lastDayOf (target_month target_year : Nat) : Int :=
  if target_month = 12 then toOrdinal (target_year + 1) 1 1 - 1
  else toOrdinal target_year (target_month + 1) 1 - 1

/-- Computation of `first_saturday` in the source: step back `(weekday - 5) % 7` days, then
the (dead) `if first_saturday > first_day_of_month` correction. -/
def firstSaturdayOf (first_day : Int) : Int :=
  if first_day - (pyWeekday first_day - 5) % 7 > first_day
  then first_day - (pyWeekday first_day - 5) % 7 - 7
  else first_day - (pyWeekday first_day - 5) % 7

/-- Computation of `last_friday` in the source: step forward `(4 - weekday) % 7` days. -/
def lastFridayOf (last_day : Int) : Int :=
  last_day + (4 - pyWeekday last_day) % 7

/-- Shallow embedding of `identify_complete_weeks_for_month(target_month,
target_year)` (src/main.py lines 135-170), with dates as ordinals.  Weekday
numbering: Saturday = 5, Friday = 4. -/
def identify_complete_weeks_for_month (target_month target_year : Nat) : List (Int × Int) :=
  weeksFrom (firstSaturdayOf (toOrdinal target_year target_month 1))
    (lastFridayOf (lastDayOf target_month target_year))

/-! ## Python string primitives

Python string operations used by the source, modelled over `String.data`
(`List Char`).  Case mapping is the ASCII mapping of `Char.toLower` /
`Char.toUpper`; all data relevant to the claims is ASCII. -/

/-- Python `str.lower()`. -/
def pyLower (s : String) : String :=
  ⟨s.data.map Char.toLower⟩

/-- Python `str.capitalize()`: first character upper-cased, every remaining
character lower-cased. -/
def pyCapitalize (s : String) : String :=
  match s.data with
  | [] => ""
  | c :: cs => ⟨Char.toUpper c :: cs.map Char.toLower⟩

/-- Python `str.strip()`: drop leading and trailing whitespace. -/
def pyStrip (s : String) : String :=
  ⟨((s.data.dropWhile Char.isWhitespace).reverse.dropWhile Char.isWhitespace).reverse⟩

/-- Numeric value of an ASCII digit. -/
def digitVal (c : Char) : Nat := c.toNat - 48

/-- Does `l` contain `pat` as a contiguous subsequence (Python `pat in l`)? -/
def containsSeq (pat : List Char) : List Char → Bool
  | [] => pat.isEmpty
  | c :: rest => pat.isPrefixOf (c :: rest) || containsSeq pat rest

/-! ## Date Parser (`parse_date`) and `format_date`

`parse_date` tries the formats `%d-%b-%y`, `%b %d, %Y`, `%Y-%m-%d`,
`%B %d, %Y` in order with `datetime.strptime`, returning the first success
and `None` when all fail.  Each format is modelled by a scanner over
`List Char` that mirrors the regular expression CPython `_strptime` builds:
`%d` is `3[01]|[12]\d|0[1-9]|[1-9]` (two digits valued 1..31, else one digit
1..9), `%m` likewise bounded by 12, `%y` exactly two digits (69..99 mapped to
1969..1999, 00..68 to 2000..2068), `%Y` exactly four digits, `%b`/`%B` the
month names case-insensitively, a space one-or-more whitespace, and the whole
string must be consumed; `datetime` construction then validates the day
against the month length (a `ValueError` falls through to the next format). -/

/-- A calendar date as produced by the Date Parser. -/
structure PDate where
  year : Nat
  month : Nat
  day : Nat
deriving DecidableEq, Repr

/-- Construction of `datetime(year, month, day)`: validates ranges, else the
`ValueError` is caught by `parse_date` and the next format is tried. -/
def mkValidDate (y m d : Nat) : Option PDate :=
  if 1 ≤ y ∧ y ≤ 9999 ∧ 1 ≤ m ∧ m ≤ 12 ∧ 1 ≤ d ∧ d ≤ daysInMonth y m
  then some ⟨y, m, d⟩ else none

/-- Consume one expected literal character. -/
def scanLit (c : Char) : List Char → Option (List Char)
  | x :: rest => if x = c then some rest else none
  | [] => none

/-- Consume one or more whitespace characters (a space in a `strptime`
format matches the regex `\s+`). -/
def scanSpaces : List Char → Option (List Char)
  | x :: rest => if x.isWhitespace then some (rest.dropWhile Char.isWhitespace) else none
  | [] => none

/-- Scanner for `%d` and `%m`: two digits valued `1..hi`, else a single digit `1..9`. -/
def scanBoundedNum (hi : Nat) : List Char → Option (Nat × List Char)
  | c1 :: c2 :: rest =>
    if c1.isDigit && c2.isDigit then
      let v := digitVal c1 * 10 + digitVal c2
      if 1 ≤ v && v ≤ hi then some (v, rest)
      else if 1 ≤ digitVal c1 then some (digitVal c1, c2 :: rest)
      else none
    else if c1.isDigit && 1 ≤ digitVal c1 then some (digitVal c1, c2 :: rest)
    else none
  | [c1] => if c1.isDigit && 1 ≤ digitVal c1 then some (digitVal c1, []) else none
  | [] => none

/-- Scanner for `%y`: exactly two digits; CPython maps values 0..68 to 2000..2068 and
69..99 to 1969..1999. -/
def scanYear2 : List Char → Option (Nat × List Char)
  | c1 :: c2 :: rest =>
    if c1.isDigit && c2.isDigit then
      let v := digitVal c1 * 10 + digitVal c2
      some (if v ≤ 68 then 2000 + v else 1900 + v, rest)
    else none
  | _ => none

/-- Scanner for `%Y`: exactly four digits. -/
def scanYear4 : List Char → Option (Nat × List Char)
  | c1 :: c2 :: c3 :: c4 :: rest =>
    if c1.isDigit && c2.isDigit && c3.isDigit && c4.isDigit then
      some (digitVal c1 * 1000 + digitVal c2 * 100 + digitVal c3 * 10 + digitVal c4, rest)
    else none
  | _ => none

/-- Lower-case English month abbreviations, as in CPython locale data. -/
def monthAbbrevs : List String :=
  ["jan", "feb", "mar", "apr", "may", "jun", "jul", "aug", "sep", "oct", "nov", "dec"]

/-- Lower-case full English month names. -/
def monthFullNames : List String :=
  ["january", "february", "march", "april", "may", "june", "july", "august",
   "september", "october", "november", "december"]

/-- Scanner for `%b`: a three-letter month abbreviation, case-insensitively. -/
def scanMonthAbbrev : List Char → Option (Nat × List Char)
  | c1 :: c2 :: c3 :: rest =>
    match monthAbbrevs.findIdx? (fun s => s.data == [c1.toLower, c2.toLower, c3.toLower]) with
    | some i => some (i + 1, rest)
    | none => none
  | _ => none

/-- Scanner for `%B`: a full month name, case-insensitively (no full English month name
is a proper prefix of another, so first match is the only match). -/
def scanMonthFull (l : List Char) : Option (Nat × List Char) :=
  match monthFullNames.findIdx? (fun s => s.data.isPrefixOf (l.map Char.toLower)) with
  | some i => some (i + 1, l.drop (monthFullNames.getD i "").length)
  | none => none

/-- Format one of `parse_date`: `%d-%b-%y`, e.g. `01-Jun-25`. -/
def fmtDBY (l : List Char) : Option PDate := do
  let (d, r1) ← scanBoundedNum 31 l
  let r2 ← scanLit '-' r1
  let (m, r3) ← scanMonthAbbrev r2
  let r4 ← scanLit '-' r3
  let (y, r5) ← scanYear2 r4
  if r5.isEmpty then mkValidDate y m d else none

/-- Format two of `parse_date`: `%b %d, %Y`, e.g. `May 11, 2025`. -/
def fmtBDY (l : List Char) : Option PDate := do
  let (m, r1) ← scanMonthAbbrev l
  let r2 ← scanSpaces r1
  let (d, r3) ← scanBoundedNum 31 r2
  let r4 ← scanLit ',' r3
  let r5 ← scanSpaces r4
  let (y, r6) ← scanYear4 r5
  if r6.isEmpty then mkValidDate y m d else none

/-- Format three of `parse_date`: `%Y-%m-%d`, e.g. `2025-05-11`. -/
def fmtYMD (l : List Char) : Option PDate := do
  let (y, r1) ← scanYear4 l
  let r2 ← scanLit '-' r1
  let (m, r3) ← scanBoundedNum 12 r2
  let r4 ← scanLit '-' r3
  let (d, r5) ← scanBoundedNum 31 r4
  if r5.isEmpty then mkValidDate y m d else none

/-- Format four of `parse_date`: `%B %d, %Y`, e.g. `July 2, 2025`. -/
def fmtFullBDY (l : List Char) : Option PDate := do
  let (m, r1) ← scanMonthFull l
  let r2 ← scanSpaces r1
  let (d, r3) ← scanBoundedNum 31 r2
  let r4 ← scanLit ',' r3
  let r5 ← scanSpaces r4
  let (y, r6) ← scanYear4 r5
  if r6.isEmpty then mkValidDate y m d else none

/-- Shallow embedding of `parse_date` (src/main.py lines 112-126): strip the
input, try the four formats in order, return the first success or `none`. -/
def parse_date (s : String) : Option PDate :=
  let l := (pyStrip s).data
  match fmtDBY l with
  | some d => some d
  | none =>
    match fmtBDY l with
    | some d => some d
    | none =>
      match fmtYMD l with
      | some d => some d
      | none => fmtFullBDY l

/-- Two-digit zero-padded decimal rendering (`%d` in `strftime`). -/
def twoDigitStr (n : Nat) : String :=
  ⟨[Char.ofNat (48 + n / 10 % 10), Char.ofNat (48 + n % 10)]⟩

/-- Capitalized month abbreviation as produced by `strftime` with `%b`. -/
def monthAbbrevCap (m : Nat) : String :=
  ["Jan", "Feb", "Mar", "Apr", "May", "Jun", "Jul", "Aug", "Sep", "Oct",
   "Nov", "Dec"].getD (m - 1) ""

/-- Capitalized full month name as produced by `strftime` with `%B`. -/
def monthFullCap (m : Nat) : String :=
  ["January", "February", "March", "April", "May", "June", "July", "August",
   "September", "October", "November", "December"].getD (m - 1) ""

/-- Shallow embedding of `format_date` (src/main.py lines 129-133):
`strftime` with `%d-%b` on a date, empty string on `None`. -/
def format_date : Option PDate → String
  | none => ""
  | some d => twoDigitStr d.day ++ "-" ++ monthAbbrevCap d.month

/-- Parsing a Weekly-Bucketer display string with the display format `%d-%b`
itself (`strptime`).  `strptime` fills in the default year 1900, so the
constructed `datetime(1900, month, day)` validates the day against the
month lengths of the (non-leap) year 1900.  Returns `(month, day)`. -/
def parseDisplayDM (s : String) : Option (Nat × Nat) := do
  let l := (pyStrip s).data
  let (d, r1) ← scanBoundedNum 31 l
  let r2 ← scanLit '-' r1
  let (m, r3) ← scanMonthAbbrev r2
  if r3.isEmpty then
    if 1 ≤ d ∧ d ≤ daysInMonth 1900 m then some (m, d) else none
  else none

/-! ## Month Selector (`extract_month_info_from_filename`,
`find_middle_month_from_files`) -/

/-- The current system date (`datetime.now()`), passed in explicitly. -/
structure Now where
  month : Nat
  year : Nat

/-- One input source.  `path` is the file path; `firstRowDate` models the
`try: pd.read_csv(file_path, nrows=1) ...` block of the source:
`.error ()` means an exception is raised inside the block (unreadable file,
or a non-string first value making `date_str.strip()` fail), `.ok none`
means the read succeeds but the `Yahrzeit Long Date` column is missing or
empty, and `.ok (some s)` means the first data row holds the string `s`. -/
structure SourceFile where
  path : String
  firstRowDate : Except Unit (Option String)

/-- Embedding of `os.path.basename`: the part after the last `/`. -/
def baseName (p : String) : String :=
  ⟨(p.data.reverse.takeWhile (fun c => c ≠ '/')).reverse⟩

/-- The `month_names` dict of the source, in insertion order (Python dicts
iterate in insertion order; the full names are tried before the
abbreviations, and `may` appears only once). -/
def month_names : List (String × Nat) :=
  [("january", 1), ("february", 2), ("march", 3), ("april", 4), ("may", 5),
   ("june", 6), ("july", 7), ("august", 8), ("september", 9), ("october", 10),
   ("november", 11), ("december", 12),
   ("jan", 1), ("feb", 2), ("mar", 3), ("apr", 4), ("jun", 6), ("jul", 7),
   ("aug", 8), ("sep", 9), ("oct", 10), ("nov", 11), ("dec", 12)]

/-- First month name contained in the (lower-cased) filename, if any:
the `for month_name, month_num in month_names.items()` loop. -/
def findMonthTok (filename : String) : Option Nat :=
  (month_names.find? (fun p => containsSeq p.1.data filename.data)).map Prod.snd

/-- A match of the regex `20\d{2}` starting at the head of `l`. -/
def yearMatchAt : List Char → Option Nat
  | '2' :: '0' :: c3 :: c4 :: _ =>
    if c3.isDigit && c4.isDigit then some (2000 + digitVal c3 * 10 + digitVal c4) else none
  | _ => none

/-- Leftmost match of the regex `20\d{2}` in the filename (`re.search`). -/
def findYearTok : List Char → Option Nat
  | [] => none
  | c :: rest =>
    match yearMatchAt (c :: rest) with
    | some yv => some yv
    | none => findYearTok rest

/-- Shallow embedding of `extract_month_info_from_filename` (src/main.py
lines 172-227).  Note the fallback structure of the source: the current
system month/year is assigned only inside the `except` handler, so a file
that reads successfully but whose first-row date fails `parse_date` (or
lacks the column) leaves the month (resp. year) as `None`. -/
def extract_month_info_from_filename (now : Now) (f : SourceFile) : Option Nat × Option Nat :=
  let filename := pyLower (baseName f.path)
  let year0 := findYearTok filename.data
  let month0 := findMonthTok filename
  let month :=
    match month0 with
    | some m => some m
    | none =>
      match f.firstRowDate with
      | .error _ => some now.month
      | .ok none => none
      | .ok (some s) =>
        match parse_date s with
        | some d => some d.month
        | none => none
  let year :=
    match year0 with
    | some yv => some yv
    | none =>
      match f.firstRowDate with
      | .error _ => some now.year
      | .ok none => none
      | .ok (some s) =>
        match parse_date s with
        | some d => some d.year
        | none => none
  (month, year)

/-- Sort key of `month_info.sort(key=lambda x: (x[1], x[0]))`: entries are
`(month, year)` pairs ordered lexicographically by `(year, month)`. -/
def infoLe (a b : Nat × Nat) : Prop :=
  toLex (a.2, a.1) ≤ toLex (b.2, b.1)

instance : DecidableRel infoLe := fun a b => by
  unfold infoLe
  exact inferInstance

instance : IsTotal (Nat × Nat) infoLe :=
  ⟨fun a b => le_total (toLex (a.2, a.1)) (toLex (b.2, b.1))⟩

instance : IsTrans (Nat × Nat) infoLe :=
  ⟨fun _ _ _ hab hbc => le_trans hab hbc⟩

/-- Python `list.sort` is stable; a stable sort is modelled by insertion
sort, which inserts each element after all earlier elements with an equal or
smaller key. -/
def sortInfos (infos : List (Nat × Nat)) : List (Nat × Nat) :=
  List.insertionSort infoLe infos

/-- The selection step of `find_middle_month_from_files`: sort the `(month,
year)` estimates by `(year, month)` and take index `len // 2` (`none` models
the `IndexError` an empty list would raise). -/
def find_middle_month (infos : List (Nat × Nat)) : Option (Nat × Nat) :=
  (sortInfos infos).get? (infos.length / 2)

/-- Shallow embedding of `find_middle_month_from_files` (src/main.py lines
230-246).  An estimate with a missing month or year component would make the
Python `sort` raise `TypeError` (`None < int`); that crash is modelled by
`none`. -/
def find_middle_month_from_files (now : Now) (files : List SourceFile) : Option (Nat × Nat) :=
  match (files.map (extract_month_info_from_filename now)).mapM
      (fun p => match p with
        | (some m, some yv) => some (m, yv)
        | _ => none) with
  | some infos => find_middle_month infos
  | none => none

/-! ## Records and the Record Merger & Normalizer -/

/-- One row of the canonical schema, after `load_data_from_csv` renaming.
Field order is the fixed column hierarchy of the grouping transform. -/
structure Record where
  dayOfWeek : String
  date : String
  hebrewDay : String
  hebrewMonth : String
  deceasedFirstName : String
  deceasedLastName : String
  deceasedHebrewName : String
  mournerFirstName : String
  mournerLastName : String
  relationship : String
  tribe : String
deriving DecidableEq, Repr

/-- A record as the row list consumed by the grouping transform, in the
order of its `grouping_columns` list. -/
def recordToRow (r : Record) : List String :=
  [r.dayOfWeek, r.date, r.hebrewDay, r.hebrewMonth, r.deceasedFirstName,
   r.deceasedLastName, r.deceasedHebrewName, r.mournerFirstName,
   r.mournerLastName, r.relationship, r.tribe]

/-- The relationship normalization of `clean_data` (src/main.py lines
101-105): capitalize the value unless its lower-casing equals the literal
none (the `isinstance` guard of the source is always true after
`astype(str)`). -/
def clean_relationship (x : String) : String :=
  if pyLower x ≠ "none" then pyCapitalize x else x

/-! ## Weekly Bucketer sort (`create_weekly_dataframes`) -/

/-- Ordinal of a parsed date; `datetime` comparison is chronological, i.e.
comparison of ordinals. -/
def pdOrd (d : PDate) : Int :=
  toOrdinal d.year d.month d.day

/-- Sort key of the `df.sort_values` call on `_date_obj`, `Deceased Last
Name`, `Deceased First Name` with `na_position` set to last: the effective
date with `NaT` largest, then the two name columns, compared
lexicographically (pandas compares `str` columns by code points, as the
Lean `String` order does). -/
def recordKey (r : Record) : (WithTop Int) ×ₗ (String ×ₗ String) :=
  toLex
    ((match parse_date r.date with
      | none => (⊤ : WithTop Int)
      | some d => (pdOrd d : WithTop Int)),
     toLex (r.deceasedLastName, r.deceasedFirstName))

/-- The record order used by the Weekly Bucketer sort. -/
def recordLe (a b : Record) : Prop :=
  recordKey a ≤ recordKey b

instance : DecidableRel recordLe := fun a b => by
  unfold recordLe
  exact inferInstance

instance : IsTotal Record recordLe :=
  ⟨fun a b => le_total (recordKey a) (recordKey b)⟩

instance : IsTrans Record recordLe :=
  ⟨fun _ _ _ hab hbc => le_trans hab hbc⟩

/-- The sorting step of `create_weekly_dataframes` (src/main.py lines
258-269).  A multi-column pandas `sort_values` is a stable lexicographic
sort (`numpy.lexsort`), modelled by insertion sort on `recordKey`. -/
def sortRecords (rs : List Record) : List Record :=
  List.insertionSort recordLe rs

/-! ## Cascading Grouping Transform (`group_data_by_date_and_name`) -/

/-- Joining raw column data with the separator, the combined key of
`result_df[existing_columns[:i+1]].astype(str).agg('|'.join, axis=1)`. -/
def barJoin : List (List Char) → List Char
  | [] => []
  | [s] => s
  | s :: rest => s ++ '|' :: barJoin rest

/-- The level-`i` grouping key of a row: columns `0..i` joined with `'|'`
(for `i = 0` this is just column 0, exactly as in the source). -/
def hierKey (row : List String) (i : Nat) : List Char :=
  barJoin ((row.take (i + 1)).map String.data)

/-- Does row `j` start a new level-`i` group?  This is the boolean series
`combined_key != combined_key.shift()`: the first row compares against the
shifted-in `NaN` and is always `true`. -/
def newGrp (rows : List (List String)) (i j : Nat) : Bool :=
  j == 0 || hierKey (rows.getD j []) i != hierKey (rows.getD (j - 1) []) i

/-- The cumulative sum of the new-group booleans: the `group_i` id of row
`j` (`(combined_key != combined_key.shift()).cumsum()`). -/
def groupId (rows : List (List String)) (i j : Nat) : Nat :=
  ((List.range (j + 1)).filter (fun k => newGrp rows i k)).length

/-- The blanking loop of the source iterates the distinct `group_i` values
and blanks every index of a group except the first.  Since `groupId` is
non-decreasing in `j`, row `j` is a non-first member of its group exactly
when some earlier row has the same group id. -/
def blankCell (rows : List (List String)) (j i : Nat) : Bool :=
  (List.range j).any (fun k => groupId rows i k == groupId rows i j)

/-- Shallow embedding of `group_data_by_date_and_name` (src/main.py lines
372-426): all group ids are computed from the original values first, then
each column of each row is blanked when the row is a non-first member of its
level-`i` group.  Rows are lists of strings in `grouping_columns` order. -/
def group_data_by_date_and_name (rows : List (List String)) : List (List String) :=
  (List.range rows.length).map fun j =>
    (List.range (rows.getD j []).length).map fun i =>
      if blankCell rows j i then "" else (rows.getD j []).getD i ""

/-! ## `create_weekly_dataframes` -/

/-- CPython `datetime._ord2ymd`: ordinal back to `(year, month, day)`,
used only to render the sheet labels (`strftime` with `%b %d`). -/
def ord2ymd (o : Int) : Nat × Nat × Nat :=
  let n := o - 1
  let n400 := n / 146097
  let n := n % 146097
  let n100 := n / 36524
  let n := n % 36524
  let n4 := n / 1461
  let n := n % 1461
  let n1 := n / 365
  let n := n % 365
  let year := (400 * n400 + 100 * n100 + 4 * n4 + n1 + 1).toNat
  if n1 == 4 || n100 == 4 then (year - 1, 12, 31)
  else
    let month := ((n + 50) / 32).toNat
    let p0 : Int := (daysBeforeMonth year month : Int)
    let mp := if p0 > n then (month - 1, (daysBeforeMonth year (month - 1) : Int)) else (month, p0)
    (year, mp.1, (n - mp.2 + 1).toNat)

/-- Rendering of an ordinal as `strftime` with `%b %d` does. -/
def fmtMonthDay (o : Int) : String :=
  monthAbbrevCap (ord2ymd o).2.1 ++ " " ++ twoDigitStr (ord2ymd o).2.2

/-- Sheet name of the source: start and end rendered as `%b %d` and joined
with a dash. -/
def sheetNameOf (w : Int × Int) : String :=
  fmtMonthDay w.1 ++ " - " ++ fmtMonthDay w.2

/-- Result of `create_weekly_dataframes`: either the early-return fallback
(`if not weeks`) or the normal `(weekly_dfs, sheet_names, master_df, title)`
tuple. -/
inductive WeeklyOutput where
  | fallback (table : List Record) (sheet : String) (title : String)
  | normal (weekly : List (List (List String))) (names : List String)
      (master : List (List String)) (title : String)

/-- Is a `WeeklyOutput` the `No valid weeks` early return? -/
def WeeklyOutput.isFallback : WeeklyOutput → Bool
  | .fallback _ _ _ => true
  | .normal _ _ _ _ => false

/-- Shallow embedding of `create_weekly_dataframes` (src/main.py lines
250-324): sort, compute the weeks, early-return on an empty week list, else
bucket each week (dropping weeks with no record dated inside the target
month), rewrite the date field to display format, apply the grouping
transform, and concatenate the weekly tables into the master. -/
def create_weekly_dataframes (df : List Record) (target_month target_year : Nat) :
    WeeklyOutput :=
  let df_sorted := sortRecords df
  let weeks := identify_complete_weeks_for_month target_month target_year
  if weeks.isEmpty then
    .fallback df_sorted "Complete List" "Yahrzeit List - No valid weeks"
  else
    let spreadsheet_title :=
      toString target_month ++ " " ++ monthFullCap target_month ++ " " ++ toString target_year
    let pairs := weeks.filterMap (fun w =>
      let weekly_data := df_sorted.filter (fun r =>
        match parse_date r.date with
        | some d => decide (w.1 ≤ pdOrd d ∧ pdOrd d ≤ w.2)
        | none => false)
      let month_data := weekly_data.filter (fun r =>
        match parse_date r.date with
        | some d => decide (d.month = target_month ∧ d.year = target_year)
        | none => false)
      if month_data.isEmpty then none
      else
        let rewritten := weekly_data.map
          (fun r => { r with date := format_date (parse_date r.date) })
        some (group_data_by_date_and_name (rewritten.map recordToRow), sheetNameOf w))
    let weekly_dfs := pairs.map Prod.fst
    let sheet_names := pairs.map Prod.snd
    let master :=
      if weekly_dfs.isEmpty then
        (df_sorted.map (fun r => { r with date := format_date (parse_date r.date) })).map
          recordToRow
      else (weekly_dfs).join
    .normal weekly_dfs sheet_names master spreadsheet_title

/-! ### Calendar lemmas -/

theorem daysInMonth_ge (y m : Nat) (h1 : 1 ≤ m) (h2 : m ≤ 12) :
    28 ≤ daysInMonth y m := by
  interval_cases m <;> simp [daysInMonth] <;> split <;> omega

theorem daysInMonth_le (y m : Nat) : daysInMonth y m ≤ 31 := by
  unfold daysInMonth
  split
  · split <;> omega
  · split <;> omega

theorem daysBeforeMonth_succ (y m : Nat) (h : 1 ≤ m) :
    daysBeforeMonth y (m + 1) = daysBeforeMonth y m + daysInMonth y m := by
  unfold daysBeforeMonth
  have hm : m + 1 - 1 = (m - 1) + 1 := by omega
  rw [hm, List.range_succ]
  have hm2 : m - 1 + 1 = m := by omega
  simp [hm2]

/-- Sum of the twelve month lengths = 365 or 366 according to the leap flag. -/
theorem daysBeforeMonth_13 (y : Nat) :
    daysBeforeMonth y 13 = if isLeap y then 366 else 365 := by
  by_cases h : isLeap y = true
  · simp [daysBeforeMonth, List.range_succ, daysInMonth, h]
  · rw [Bool.not_eq_true] at h
    simp [daysBeforeMonth, List.range_succ, daysInMonth, h]

theorem daysBeforeYear_succ (y : Nat) (hy : 1 ≤ y) :
    daysBeforeYear (y + 1) = daysBeforeYear y + (if isLeap y then 366 else 365) := by
  have hb : isLeap y = (y % 4 == 0 && (y % 100 != 0 || y % 400 == 0)) := rfl
  unfold daysBeforeYear
  by_cases e4 : y % 4 = 0 <;> by_cases e100 : y % 100 = 0 <;> by_cases e400 : y % 400 = 0 <;>
    simp only [hb, e4, e100, e400] <;> simp <;> push_cast <;> omega

/-- The first day of month `m+1` is `daysInMonth y m` days after the first
day of month `m` (the Dec → Jan step crosses the year boundary). -/
theorem toOrdinal_next_month (y m : Nat) (hy : 1 ≤ y) (h1 : 1 ≤ m) (h2 : m ≤ 12) :
    (if m = 12 then toOrdinal (y + 1) 1 1 else toOrdinal y (m + 1) 1) =
      toOrdinal y m 1 + (daysInMonth y m : Int) := by
  by_cases hm : m = 12
  · subst hm
    simp only [if_pos rfl]
    unfold toOrdinal
    rw [daysBeforeYear_succ y hy]
    have h13 : daysBeforeMonth y 13 = daysBeforeMonth y 12 + daysInMonth y 12 :=
      daysBeforeMonth_succ y 12 (by omega)
    have h13' : daysBeforeMonth y 13 = if isLeap y then 366 else 365 := daysBeforeMonth_13 y
    have hd : daysInMonth y 12 = 31 := by simp [daysInMonth]
    have h1' : daysBeforeMonth (y + 1) 1 = 0 := by simp [daysBeforeMonth]
    rw [h1']
    cases hL : isLeap y <;> simp only [hL] at h13' ⊢ <;> simp at h13' ⊢ <;> omega
  · rw [if_neg hm]
    unfold toOrdinal
    rw [daysBeforeMonth_succ y m h1]
    push_cast
    ring

/-! ### Properties of the week loop -/

theorem weeksFrom_cons (sat lf : Int) (h : sat ≤ lf) :
    weeksFrom sat lf = (sat, sat + 6) :: weeksFrom (sat + 7) lf := by
  rw [weeksFrom]
  simp [h]

theorem weeksFrom_nil (sat lf : Int) (h : lf < sat) :
    weeksFrom sat lf = [] := by
  rw [weeksFrom]
  simp [show ¬ sat ≤ lf by omega]

theorem weeksFrom_ne_nil (sat lf : Int) (h : sat ≤ lf) :
    weeksFrom sat lf ≠ [] := by
  rw [weeksFrom_cons sat lf h]
  simp

/-- Every entry of the week loop output: the `i`-th week exists exactly when
`sat + 7i` has not passed `lastFriday`, and is `(sat + 7i, sat + 7i + 6)`. -/
theorem weeksFrom_getq (i : Nat) : ∀ sat lf : Int,
    (weeksFrom sat lf).get? i =
      if sat + 7 * i ≤ lf then some (sat + 7 * i, sat + 7 * i + 6) else none := by
  induction i with
  | zero =>
    intro sat lf
    by_cases hle : sat ≤ lf
    · rw [weeksFrom_cons sat lf hle]
      rw [if_pos (by omega)]
      norm_num
    · rw [weeksFrom_nil sat lf (by omega)]
      rw [if_neg (by push_cast; omega)]
      rfl
  | succ n ih =>
    intro sat lf
    by_cases hle : sat ≤ lf
    · rw [weeksFrom_cons sat lf hle]
      have : ((sat, sat + 6) :: weeksFrom (sat + 7) lf).get? (n + 1)
          = (weeksFrom (sat + 7) lf).get? n := rfl
      rw [this, ih (sat + 7) lf]
      have harith : sat + 7 + 7 * (n : Int) = sat + 7 * ((n : Int) + 1) := by ring
      have hcast : ((n + 1 : Nat) : Int) = (n : Int) + 1 := by push_cast; ring
      rw [hcast, ← harith]
    · rw [weeksFrom_nil sat lf (by omega)]
      rw [if_neg (by push_cast; omega)]
      rfl

theorem firstSaturdayOf_eq (F : Int) :
    firstSaturdayOf F = F - (pyWeekday F - 5) % 7 := by
  unfold firstSaturdayOf
  rw [if_neg (by unfold pyWeekday; omega)]

theorem lastDayOf_eq (m y : Nat) (h1 : 1 ≤ m) (h2 : m ≤ 12) (hy : 1 ≤ y) :
    lastDayOf m y = toOrdinal y m 1 + (daysInMonth y m : Int) - 1 := by
  have := toOrdinal_next_month y m hy h1 h2
  unfold lastDayOf
  by_cases hm : m = 12 <;> simp only [hm, if_true, if_false] at this ⊢ <;> omega

/-- Abstract description of the Week Partitioner output: there are a first
Saturday `fs` and a last Friday `lf` bracketing the month such that the
output is `weeksFrom fs lf`. -/
theorem identify_spec (m y : Nat) (h1 : 1 ≤ m) (h2 : m ≤ 12) (hy : 1 ≤ y) :
    ∃ fs lf : Int,
      identify_complete_weeks_for_month m y = weeksFrom fs lf ∧
      pyWeekday fs = 5 ∧
      fs ≤ toOrdinal y m 1 ∧ toOrdinal y m 1 ≤ fs + 6 ∧
      pyWeekday lf = 4 ∧
      toOrdinal y m 1 + (daysInMonth y m : Int) - 1 ≤ lf ∧
      lf ≤ toOrdinal y m 1 + (daysInMonth y m : Int) - 1 + 6 := by
  refine ⟨firstSaturdayOf (toOrdinal y m 1), lastFridayOf (lastDayOf m y),
    rfl, ?_, ?_, ?_, ?_, ?_, ?_⟩ <;>
    simp only [firstSaturdayOf_eq, lastFridayOf, lastDayOf_eq m y h1 h2 hy, pyWeekday] <;>
    omega

/-! ### Claim C2: well-formedness of the Week Partitioner output -/

/-- C2: for every valid target (month, year), each returned week spans exactly
7 days from a Saturday to a Friday, consecutive weeks are contiguous (next
start = previous end + 1), the list is strictly ascending, and every week
contains at least one day of the target month. -/
theorem c2_week_partitioner_wellformed (m y : Nat) (h1 : 1 ≤ m) (h2 : m ≤ 12) (hy : 1 ≤ y) :
    (∀ w ∈ identify_complete_weeks_for_month m y,
        w.2 = w.1 + 6 ∧ pyWeekday w.1 = 5 ∧ pyWeekday w.2 = 4 ∧
        (∃ o : Int, w.1 ≤ o ∧ o ≤ w.2 ∧
          toOrdinal y m 1 ≤ o ∧ o ≤ toOrdinal y m 1 + (daysInMonth y m : Int) - 1)) ∧
    (∀ (i : Nat) (w w' : Int × Int),
        (identify_complete_weeks_for_month m y).get? i = some w →
        (identify_complete_weeks_for_month m y).get? (i + 1) = some w' →
        w'.1 = w.2 + 1 ∧ w.1 < w'.1) := by
  obtain ⟨fs, lf, hEq, h5, hfsle, hle6, h4, hlastle, hlf6⟩ := identify_spec m y h1 h2 hy
  have hdim : 28 ≤ daysInMonth y m := daysInMonth_ge y m h1 h2
  simp only [pyWeekday] at h5 h4
  constructor
  · intro w hw
    rw [hEq] at hw
    obtain ⟨i, hi⟩ := List.mem_iff_get?.mp hw
    rw [weeksFrom_getq] at hi
    by_cases hc : fs + 7 * (i : Int) ≤ lf
    · rw [if_pos hc] at hi
      obtain rfl : w = (fs + 7 * (i : Int), fs + 7 * (i : Int) + 6) := by
        exact (Option.some_injective _ hi).symm
      have hstart_last : fs + 7 * (i : Int) ≤ toOrdinal y m 1 + (daysInMonth y m : Int) - 1 := by
        omega
      refine ⟨rfl, ?_, ?_, ?_⟩
      · simp only [pyWeekday]
        omega
      · simp only [pyWeekday]
        omega
      · rcases le_total (fs + 7 * (i : Int)) (toOrdinal y m 1) with hcmp | hcmp
        · exact ⟨toOrdinal y m 1, by omega, by omega, by omega, by omega⟩
        · exact ⟨fs + 7 * (i : Int), by omega, by omega, by omega, by omega⟩
    · rw [if_neg hc] at hi
      exact absurd hi (by simp)
  · intro i w w' hw hw'
    rw [hEq, weeksFrom_getq] at hw hw'
    by_cases hc : fs + 7 * (i : Int) ≤ lf
    · rw [if_pos hc] at hw
      by_cases hc' : fs + 7 * ((i + 1 : Nat) : Int) ≤ lf
      · rw [if_pos hc'] at hw'
        obtain rfl : w = (fs + 7 * (i : Int), fs + 7 * (i : Int) + 6) :=
          (Option.some_injective _ hw).symm
        obtain rfl : w' = (fs + 7 * ((i + 1 : Nat) : Int), fs + 7 * ((i + 1 : Nat) : Int) + 6) :=
          (Option.some_injective _ hw').symm
        constructor <;> simp <;> push_cast <;> ring_nf <;> omega
      · rw [if_neg hc'] at hw'
        exact absurd hw' (by simp)
    · rw [if_neg hc] at hw
      exact absurd hw (by simp)

/-- Concrete evaluation of the Week Partitioner for February 2025.
Ordinal 739283 is 2025-02-01 (a Saturday), 739310 is 2025-02-28 (a Friday). -/
theorem identify_feb2025 :
    identify_complete_weeks_for_month 2 2025 =
      [(739283, 739289), (739290, 739296), (739297, 739303), (739304, 739310)] := by
  have e1 : firstSaturdayOf (toOrdinal 2025 2 1) = 739283 := by decide
  have e2 : lastFridayOf (lastDayOf 2 2025) = 739310 := by decide
  have h : identify_complete_weeks_for_month 2 2025 = weeksFrom 739283 739310 := by
    unfold identify_complete_weeks_for_month
    rw [e1, e2]
  rw [h, weeksFrom_cons _ _ (by decide), weeksFrom_cons _ _ (by decide),
    weeksFrom_cons _ _ (by decide), weeksFrom_cons _ _ (by decide),
    weeksFrom_nil _ _ (by decide)]
  decide

/-- C2 witness: the guarantees instantiated for February 2025, checked on the
first two concrete weeks. -/
theorem c2_week_partitioner_wellformed_witness :
    pyWeekday 739283 = 5 ∧ pyWeekday 739289 = 4 ∧ (739290 : Int) = 739289 + 1 := by
  have h := c2_week_partitioner_wellformed 2 2025 (by norm_num) (by norm_num) (by norm_num)
  have hm : ((739283 : Int), (739289 : Int)) ∈ identify_complete_weeks_for_month 2 2025 := by
    rw [identify_feb2025]
    simp
  have h1 := h.1 _ hm
  have h2 := h.2 0 (739283, 739289) (739290, 739296)
    (by rw [identify_feb2025]; rfl) (by rw [identify_feb2025]; rfl)
  exact ⟨h1.2.1, h1.2.2.1, h2.1⟩

/-! ### Claim C3: February 2025 scenario -/

/-- C3 (counterexample): for target February 2025 the Week Partitioner
returns 4 weeks, not 5, and the final week is (Sat 2025-02-22, Fri
2025-02-28), not one ending Friday 2025-03-07: February 2025 runs
Saturday-to-Friday exactly, so no week containing March days is emitted. -/
theorem c3_feb2025_counterexample :
    (identify_complete_weeks_for_month 2 2025).length = 4 ∧
    ¬ ((identify_complete_weeks_for_month 2 2025).length = 5) ∧
    (identify_complete_weeks_for_month 2 2025).getLast?
      = some (toOrdinal 2025 2 22, toOrdinal 2025 2 28) ∧
    ¬ ((identify_complete_weeks_for_month 2 2025).getLast?
      = some (toOrdinal 2025 3 1, toOrdinal 2025 3 7)) := by
  rw [identify_feb2025]
  decide

/-- C3 (amended): for target February 2025 the Week Partitioner returns
exactly 4 weeks, the first starting Saturday 2025-02-01 and the last ending
Friday 2025-02-28. -/
theorem c3_feb2025_amended :
    identify_complete_weeks_for_month 2 2025 =
      [(toOrdinal 2025 2 1, toOrdinal 2025 2 7),
       (toOrdinal 2025 2 8, toOrdinal 2025 2 14),
       (toOrdinal 2025 2 15, toOrdinal 2025 2 21),
       (toOrdinal 2025 2 22, toOrdinal 2025 2 28)] ∧
    (identify_complete_weeks_for_month 2 2025).length = 4 ∧
    pyWeekday (toOrdinal 2025 2 1) = 5 ∧ pyWeekday (toOrdinal 2025 2 28) = 4 := by
  rw [identify_feb2025]
  decide

/-! ### Claim C10: the fallback branch is unreachable for valid targets -/

/-- C10: for every valid target month/year the Week Partitioner returns at
least one week, so the `No valid weeks found` early return of
`create_weekly_dataframes` is never taken. -/
theorem c10_fallback_unreachable (m y : Nat) (h1 : 1 ≤ m) (h2 : m ≤ 12) (hy : 1 ≤ y) :
    identify_complete_weeks_for_month m y ≠ [] ∧
    ∀ df : List Record, (create_weekly_dataframes df m y).isFallback = false := by
  obtain ⟨fs, lf, hEq, h5, hfsle, hle6, h4, hlastle, hlf6⟩ := identify_spec m y h1 h2 hy
  have hdim : 28 ≤ daysInMonth y m := daysInMonth_ge y m h1 h2
  simp only [pyWeekday] at h5 h4
  have hne : identify_complete_weeks_for_month m y ≠ [] := by
    rw [hEq]
    exact weeksFrom_ne_nil fs lf (by omega)
  refine ⟨hne, fun df => ?_⟩
  have hIE : (identify_complete_weeks_for_month m y).isEmpty = false := by
    cases hl : identify_complete_weeks_for_month m y with
    | nil => exact absurd hl hne
    | cons a l => rfl
  simp [create_weekly_dataframes, hIE, WeeklyOutput.isFallback]

/-- C10 witness: instantiated at February 2025 with an empty record set. -/
theorem c10_fallback_unreachable_witness :
    identify_complete_weeks_for_month 2 2025 ≠ [] ∧
    (create_weekly_dataframes [] 2 2025).isFallback = false := by
  have h := c10_fallback_unreachable 2 2025 (by decide) (by decide) (by decide)
  exact ⟨h.1, h.2 []⟩

/-! ### Cascading Grouping Transform: group ids and blanking -/

theorem groupId_succ (rows : List (List String)) (i j : Nat) :
    groupId rows i (j + 1) =
      groupId rows i j + (if newGrp rows i (j + 1) then 1 else 0) := by
  unfold groupId
  rw [List.range_succ, List.filter_append, List.length_append]
  congr 1
  by_cases h : newGrp rows i (j + 1) = true <;> simp [h]

theorem groupId_mono (rows : List (List String)) (i : Nat) :
    Monotone (groupId rows i) :=
  monotone_nat_of_le_succ fun j => by
    rw [groupId_succ]
    split <;> omega

/-- Row `j` is blanked at level `i` exactly when it is not the first row and
its level-`i` key equals the level-`i` key of the previous row: the group ids are
a cumulative sum of change markers, so an earlier row shares the id of row `j`
precisely when no change marker fires at `j`. -/
theorem blank_iff (rows : List (List String)) (j i : Nat) :
    blankCell rows j i = true ↔
      (j ≠ 0 ∧ hierKey (rows.getD j []) i = hierKey (rows.getD (j - 1) []) i) := by
  unfold blankCell
  rw [List.any_eq_true]
  constructor
  · rintro ⟨k, hk, hgid⟩
    rw [List.mem_range] at hk
    rw [beq_iff_eq] at hgid
    have hj0 : j ≠ 0 := by omega
    refine ⟨hj0, ?_⟩
    by_contra hkey
    obtain ⟨j', rfl⟩ : ∃ j', j = j' + 1 := ⟨j - 1, by omega⟩
    have hng : newGrp rows i (j' + 1) = true := by
      unfold newGrp
      simp only [Bool.or_eq_true, beq_iff_eq, bne_iff_ne, ne_eq]
      right
      simpa using hkey
    have hsucc := groupId_succ rows i j'
    rw [hng, if_pos rfl] at hsucc
    have hmono := groupId_mono rows i (show k ≤ j' by omega)
    omega
  · rintro ⟨hj0, hkey⟩
    obtain ⟨j', rfl⟩ : ∃ j', j = j' + 1 := ⟨j - 1, by omega⟩
    refine ⟨j', by simp, ?_⟩
    have hng : newGrp rows i (j' + 1) = false := by
      unfold newGrp
      simp only [Bool.or_eq_false_iff, beq_eq_false_iff_ne, ne_eq, bne_eq_false_iff_eq]
      exact ⟨by omega, by simpa using hkey⟩
    have hsucc := groupId_succ rows i j'
    rw [hng] at hsucc
    simp only [Bool.false_eq_true, if_false, Nat.add_zero] at hsucc
    rw [beq_iff_eq]
    omega

theorem group_data_length (rows : List (List String)) :
    (group_data_by_date_and_name rows).length = rows.length := by
  unfold group_data_by_date_and_name
  simp

theorem group_data_row (rows : List (List String)) (j : Nat) (hj : j < rows.length) :
    (group_data_by_date_and_name rows).getD j [] =
      (List.range (rows.getD j []).length).map
        (fun i => if blankCell rows j i then "" else (rows.getD j []).getD i "") := by
  unfold group_data_by_date_and_name
  simp [List.getD_eq_getElem?_getD, List.getElem?_map, List.getElem?_range, hj]

theorem group_data_rowlen (rows : List (List String)) (j : Nat) (hj : j < rows.length) :
    ((group_data_by_date_and_name rows).getD j []).length = (rows.getD j []).length := by
  rw [group_data_row rows j hj]
  simp

theorem group_data_cell (rows : List (List String)) (j i : Nat)
    (hj : j < rows.length) (hi : i < (rows.getD j []).length) :
    ((group_data_by_date_and_name rows).getD j []).getD i "" =
      if blankCell rows j i then "" else (rows.getD j []).getD i "" := by
  rw [group_data_row rows j hj]
  rw [List.getD_eq_getElem?_getD, List.getElem?_map, List.getElem?_range hi]
  rfl

/-- The cell-level description of the transform: cell `(j, i)` is blanked
exactly when row `j` is not the first row and columns `0..i` of row `j`,
joined with `'|'`, equal the same join for row `j - 1`. -/
theorem group_cell_eq (rows : List (List String)) (j i : Nat)
    (hj : j < rows.length) (hi : i < (rows.getD j []).length) :
    ((group_data_by_date_and_name rows).getD j []).getD i "" =
      if j ≠ 0 ∧ hierKey (rows.getD j []) i = hierKey (rows.getD (j - 1) []) i
      then "" else (rows.getD j []).getD i "" := by
  rw [group_data_cell rows j i hj hi]
  by_cases hb : blankCell rows j i = true
  · rw [if_pos hb, if_pos ((blank_iff rows j i).mp hb)]
  · rw [if_neg (by simpa using hb), if_neg (fun hc => hb ((blank_iff rows j i).mpr hc))]

/-! ### Injectivity of the join key on separator-free values -/

theorem barJoin_cons₂ (x y : List Char) (r : List (List Char)) :
    barJoin (x :: y :: r) = x ++ '|' :: barJoin (y :: r) := rfl

theorem bar_append_inj (a : List Char) : ∀ (b u v : List Char), '|' ∉ a → '|' ∉ b →
    a ++ '|' :: u = b ++ '|' :: v → a = b ∧ u = v := by
  induction a with
  | nil =>
    intro b u v ha hb h
    cases b with
    | nil => simpa using h
    | cons c b' =>
      simp only [List.nil_append, List.cons_append, List.cons.injEq] at h
      exact absurd (by rw [h.1]; exact List.mem_cons_self _ _) hb
  | cons c a' ih =>
    intro b u v ha hb h
    cases b with
    | nil =>
      simp only [List.cons_append, List.nil_append, List.cons.injEq] at h
      exact absurd (by rw [← h.1]; exact List.mem_cons_self _ _) ha
    | cons c' b' =>
      simp only [List.cons_append, List.cons.injEq] at h
      obtain ⟨h1, h2⟩ := h
      have ha' : '|' ∉ a' := fun hm => ha (List.mem_cons_of_mem _ hm)
      have hb' : '|' ∉ b' := fun hm => hb (List.mem_cons_of_mem _ hm)
      obtain ⟨e1, e2⟩ := ih b' u v ha' hb' h2
      exact ⟨by rw [h1, e1], e2⟩

/-- On component lists of equal length whose components are free of the
separator `'|'`, the join is injective. -/
theorem barJoin_inj_len : ∀ (l1 l2 : List (List Char)), l1.length = l2.length →
    (∀ s ∈ l1, '|' ∉ s) → (∀ s ∈ l2, '|' ∉ s) → barJoin l1 = barJoin l2 → l1 = l2 := by
  intro l1
  induction l1 with
  | nil =>
    intro l2 hlen _ _ _
    cases l2 with
    | nil => rfl
    | cons b l2' => simp at hlen
  | cons a l1' ih =>
    intro l2 hlen h1 h2 hj
    cases l2 with
    | nil => simp at hlen
    | cons b l2' =>
      cases l1' with
      | nil =>
        cases l2' with
        | nil =>
          simp only [barJoin] at hj
          rw [hj]
        | cons x xs => simp at hlen
      | cons a2 l1'' =>
        cases l2' with
        | nil => simp at hlen
        | cons b2 l2'' =>
          rw [barJoin_cons₂, barJoin_cons₂] at hj
          obtain ⟨e1, e2⟩ := bar_append_inj a b _ _
            (h1 a (List.mem_cons_self _ _)) (h2 b (List.mem_cons_self _ _)) hj
          have e3 := ih (b2 :: l2'') (by simpa using hlen)
            (fun s hs => h1 s (List.mem_cons_of_mem _ hs))
            (fun s hs => h2 s (List.mem_cons_of_mem _ hs)) e2
          rw [e1, e3]

/-- The number of separators in a join of separator-free components is one
less than the number of components. -/
theorem barJoin_count : ∀ l : List (List Char), (∀ s ∈ l, '|' ∉ s) →
    (barJoin l).count '|' = l.length - 1 := by
  intro l
  induction l with
  | nil => intro _; rfl
  | cons s t iht =>
    intro h
    cases t with
    | nil =>
      simp only [barJoin, List.length_cons]
      exact List.count_eq_zero.mpr (h s (List.mem_cons_self _ _))
    | cons t2 r =>
      rw [barJoin_cons₂, List.count_append]
      have hs : s.count '|' = 0 := List.count_eq_zero.mpr (h s (List.mem_cons_self _ _))
      have ht := iht (fun x hx => h x (List.mem_cons_of_mem _ hx))
      rw [List.count_cons_self] at *
      simp only [List.length_cons] at *
      omega

/-- Keys agree at level `i` exactly when the first `i + 1` columns agree,
provided all values are `'|'`-free and both rows have more than `i`
columns. -/
theorem hierKey_eq_iff (r1 r2 : List String) (i : Nat)
    (h1 : i < r1.length) (h2 : i < r2.length)
    (hb1 : ∀ v ∈ r1, '|' ∉ v.data) (hb2 : ∀ v ∈ r2, '|' ∉ v.data) :
    hierKey r1 i = hierKey r2 i ↔ r1.take (i + 1) = r2.take (i + 1) := by
  constructor
  · intro h
    unfold hierKey at h
    have e := barJoin_inj_len _ _
      (by simp only [List.length_map, List.length_take]; omega)
      (by
        intro s hs
        obtain ⟨v, hv, rfl⟩ := List.mem_map.mp hs
        exact hb1 v (List.take_subset _ _ hv))
      (by
        intro s hs
        obtain ⟨v, hv, rfl⟩ := List.mem_map.mp hs
        exact hb2 v (List.take_subset _ _ hv)) h
    exact List.map_injective_iff.mpr (fun a b hab => String.ext hab) e
  · intro h
    unfold hierKey
    rw [h]

/-! ### Claim C1: blanking characterization and Scenario C -/

/-- C1 (amended): (1) a cell of the Cascading Grouping Transform is blanked
exactly when its row is not the first and the `'|'`-join of columns `0..i`
equals the join of the previous row; (2) for two records agreeing on the four
date-hierarchy columns and differing in deceased last name, *provided no
field value contains the separator `'|'`*, the second record has the four
date columns blanked, keeps its deceased last name, and reprints every
column after it (the deceased first name is blanked exactly when it, too,
repeats). -/
theorem c1_cascading_blanking :
    (∀ (rows : List (List String)) (j i : Nat), j < rows.length →
        i < (rows.getD j []).length →
        ((group_data_by_date_and_name rows).getD j []).getD i "" =
          if j ≠ 0 ∧ hierKey (rows.getD j []) i = hierKey (rows.getD (j - 1) []) i
          then "" else (rows.getD j []).getD i "") ∧
    (∀ a b : Record,
        a.dayOfWeek = b.dayOfWeek → a.date = b.date → a.hebrewDay = b.hebrewDay →
        a.hebrewMonth = b.hebrewMonth → a.deceasedLastName ≠ b.deceasedLastName →
        (∀ v ∈ recordToRow a, '|' ∉ v.data) → (∀ v ∈ recordToRow b, '|' ∉ v.data) →
        group_data_by_date_and_name [recordToRow a, recordToRow b] =
          [recordToRow a,
           ["", "", "", "",
            if a.deceasedFirstName = b.deceasedFirstName then "" else b.deceasedFirstName,
            b.deceasedLastName, b.deceasedHebrewName, b.mournerFirstName,
            b.mournerLastName, b.relationship, b.tribe]]) := by
  constructor
  · intro rows j i hj hi
    exact group_cell_eq rows j i hj hi
  · intro a b
    obtain ⟨a0, a1, a2, a3, a4, a5, a6, a7, a8, a9, a10⟩ := a
    obtain ⟨b0, b1, b2, b3, b4, b5, b6, b7, b8, b9, b10⟩ := b
    intro h0 h1 h2 h3 hne hba hbb
    simp only [recordToRow] at hba hbb ⊢
    simp only at h0 h1 h2 h3 hne
    set ra : List String := [a0, a1, a2, a3, a4, a5, a6, a7, a8, a9, a10] with hra
    set rb : List String := [b0, b1, b2, b3, b4, b5, b6, b7, b8, b9, b10] with hrb
    have hcell : ∀ i : Nat, (if blankCell [ra, rb] 1 i then "" else rb.getD i "") =
        (if hierKey rb i = hierKey ra i then "" else rb.getD i "") := by
      intro i
      by_cases hk : hierKey rb i = hierKey ra i
      · rw [if_pos ((blank_iff [ra, rb] 1 i).mpr ⟨one_ne_zero, hk⟩), if_pos hk]
      · rw [if_neg (fun hb => hk (((blank_iff [ra, rb] 1 i).mp hb).2)), if_neg hk]
    have hshape : group_data_by_date_and_name [ra, rb] =
        [(List.range 11).map (fun i => if blankCell [ra, rb] 0 i then "" else ra.getD i ""),
         (List.range 11).map (fun i => if blankCell [ra, rb] 1 i then "" else rb.getD i "")] :=
      rfl
    rw [hshape]
    have hrow0 : (List.range 11).map
        (fun i => if blankCell [ra, rb] 0 i then "" else ra.getD i "") = ra := rfl
    rw [hrow0]
    refine congrArg (ra :: ·) ?_
    have hexp : (List.range 11).map
        (fun i => if blankCell [ra, rb] 1 i then "" else rb.getD i "") =
        [if blankCell [ra, rb] 1 0 then "" else rb.getD 0 "",
         if blankCell [ra, rb] 1 1 then "" else rb.getD 1 "",
         if blankCell [ra, rb] 1 2 then "" else rb.getD 2 "",
         if blankCell [ra, rb] 1 3 then "" else rb.getD 3 "",
         if blankCell [ra, rb] 1 4 then "" else rb.getD 4 "",
         if blankCell [ra, rb] 1 5 then "" else rb.getD 5 "",
         if blankCell [ra, rb] 1 6 then "" else rb.getD 6 "",
         if blankCell [ra, rb] 1 7 then "" else rb.getD 7 "",
         if blankCell [ra, rb] 1 8 then "" else rb.getD 8 "",
         if blankCell [ra, rb] 1 9 then "" else rb.getD 9 "",
         if blankCell [ra, rb] 1 10 then "" else rb.getD 10 ""] := rfl
    rw [hexp]
    have kdiff : ∀ i : Nat, i < 11 → 5 ≤ i → ¬ (hierKey rb i = hierKey ra i) := by
      intro i hi11 hi5 hk
      have e := (hierKey_eq_iff rb ra i (by rw [hrb]; simpa using hi11)
        (by rw [hra]; simpa using hi11) hbb hba).mp hk
      have e5 := congrArg (fun l => l.getD 5 "") e
      have h5lt : 5 < i + 1 := by omega
      rw [hra, hrb] at e5
      simp only [List.getD_eq_getElem?_getD, List.getElem?_take_of_lt h5lt] at e5
      have e5' : b5 = a5 := by simpa using e5
      exact hne e5'.symm
    have k4 : ¬ (a4 = b4) → ¬ (hierKey rb 4 = hierKey ra 4) := by
      intro hf hk
      have e := (hierKey_eq_iff rb ra 4 (by rw [hrb]; norm_num)
        (by rw [hra]; norm_num) hbb hba).mp hk
      rw [hra, hrb] at e
      have e4 := congrArg (fun l => l.getD 4 "") e
      have h4lt : 4 < 4 + 1 := by omega
      simp only [List.getD_eq_getElem?_getD, List.getElem?_take_of_lt h4lt] at e4
      have e4' : b4 = a4 := by simpa using e4
      exact hf e4'.symm
    simp only [List.cons.injEq, and_true]
    refine ⟨?_, ?_, ?_, ?_, ?_, ?_, ?_, ?_, ?_, ?_, ?_⟩
    · rw [hcell 0, if_pos (show hierKey rb 0 = hierKey ra 0 by
        show b0.data = a0.data
        rw [h0])]
    · rw [hcell 1, if_pos (show hierKey rb 1 = hierKey ra 1 by
        show b0.data ++ '|' :: b1.data = a0.data ++ '|' :: a1.data
        rw [h0, h1])]
    · rw [hcell 2, if_pos (show hierKey rb 2 = hierKey ra 2 by
        show b0.data ++ '|' :: (b1.data ++ '|' :: b2.data)
          = a0.data ++ '|' :: (a1.data ++ '|' :: a2.data)
        rw [h0, h1, h2])]
    · rw [hcell 3, if_pos (show hierKey rb 3 = hierKey ra 3 by
        show b0.data ++ '|' :: (b1.data ++ '|' :: (b2.data ++ '|' :: b3.data))
          = a0.data ++ '|' :: (a1.data ++ '|' :: (a2.data ++ '|' :: a3.data))
        rw [h0, h1, h2, h3])]
    · rw [hcell 4]
      by_cases hf : a4 = b4
      · rw [if_pos (show hierKey rb 4 = hierKey ra 4 by
          show b0.data ++ '|' :: (b1.data ++ '|' :: (b2.data ++ '|' :: (b3.data ++ '|' :: b4.data)))
            = a0.data ++ '|' :: (a1.data ++ '|' :: (a2.data ++ '|' :: (a3.data ++ '|' :: a4.data)))
          rw [h0, h1, h2, h3, hf]), if_pos hf]
      · rw [if_neg (k4 hf), if_neg hf]
        rfl
    · rw [hcell 5, if_neg (kdiff 5 (by omega) (by omega))]
      rfl
    · rw [hcell 6, if_neg (kdiff 6 (by omega) (by omega))]
      rfl
    · rw [hcell 7, if_neg (kdiff 7 (by omega) (by omega))]
      rfl
    · rw [hcell 8, if_neg (kdiff 8 (by omega) (by omega))]
      rfl
    · rw [hcell 9, if_neg (kdiff 9 (by omega) (by omega))]
      rfl
    · rw [hcell 10, if_neg (kdiff 10 (by omega) (by omega))]
      rfl

/-- C1 (counterexample): the Scenario-C consequence of the claim fails when field
values contain the join separator `'|'`.  These two records agree on the four
date-hierarchy columns and differ in deceased last name (`"y"` vs `"|y"`),
yet the transform blanks the deceased last name of the second record (the level-5
joins collide: `..|x||y` both times) and blanks the later columns instead of
reprinting them. -/
theorem c1_cascading_blanking_counterexample :
    group_data_by_date_and_name
        [["Sun", "01-Jun", "5", "Sivan", "x|", "y", "h", "m1", "m2", "rel", "t"],
         ["Sun", "01-Jun", "5", "Sivan", "x", "|y", "h", "m1", "m2", "rel", "t"]] =
      [["Sun", "01-Jun", "5", "Sivan", "x|", "y", "h", "m1", "m2", "rel", "t"],
       ["", "", "", "", "x", "", "", "", "", "", ""]] ∧
    ("y" : String) ≠ "|y" ∧ ("" : String) ≠ "|y" := by
  refine ⟨by decide, by decide, by decide⟩

/-- C1 witness: the amended scenario applied to two concrete separator-free
records sharing the date hierarchy and the deceased first name. -/
theorem c1_cascading_blanking_witness :
    group_data_by_date_and_name
        [recordToRow ⟨"Sun", "01-Jun", "5", "Sivan", "A", "B", "h", "m1", "m2", "rel", "t"⟩,
         recordToRow ⟨"Sun", "01-Jun", "5", "Sivan", "A", "C", "h2", "m3", "m4", "rel2", "t"⟩] =
      [recordToRow ⟨"Sun", "01-Jun", "5", "Sivan", "A", "B", "h", "m1", "m2", "rel", "t"⟩,
       ["", "", "", "", "", "C", "h2", "m3", "m4", "rel2", "t"]] := by
  have h := c1_cascading_blanking.2
    ⟨"Sun", "01-Jun", "5", "Sivan", "A", "B", "h", "m1", "m2", "rel", "t"⟩
    ⟨"Sun", "01-Jun", "5", "Sivan", "A", "C", "h2", "m3", "m4", "rel2", "t"⟩
    rfl rfl rfl rfl (by decide) (by decide) (by decide)
  simpa using h

/-! ### Claim C6: idempotence of the transform -/

theorem getD_take_eq {α : Type} (l1 l2 : List α) (d : α) (n c : Nat) (hc : c < n)
    (h : l1.take n = l2.take n) : l1.getD c d = l2.getD c d := by
  have h2 := congrArg (fun l => l.getD c d) h
  simpa [List.getD_eq_getElem?_getD, List.getElem?_take_of_lt hc] using h2

theorem getD_mem {α : Type} (l : List α) (c : Nat) (d : α) (hc : c < l.length) :
    l.getD c d ∈ l := by
  rw [List.getD_eq_getElem?_getD, List.getElem?_eq_getElem hc]
  exact List.getElem_mem hc

theorem getD_eq_get {α : Type} (l : List α) (d : α) (c : Nat) (hc : c < l.length) :
    l.getD c d = l[c] := by
  rw [List.getD_eq_getElem?_getD, List.getElem?_eq_getElem hc]
  rfl

/-- Every value of a transformed row is blank or an original value, hence
separator-free when the original values are. -/
theorem barfree_out (rows : List (List String))
    (hv : ∀ row ∈ rows, ∀ v ∈ row, v ≠ "" ∧ '|' ∉ v.data)
    (k : Nat) (hk : k < rows.length) :
    ∀ v ∈ (group_data_by_date_and_name rows).getD k [], '|' ∉ v.data := by
  intro v hvmem
  rw [group_data_row rows k hk] at hvmem
  obtain ⟨c, hc, rfl⟩ := List.mem_map.mp hvmem
  rw [List.mem_range] at hc
  by_cases hb : blankCell rows k c = true
  · rw [if_pos hb]
    simp
  · rw [if_neg (by simpa using hb)]
    exact (hv _ (getD_mem rows k [] hk) _ (getD_mem _ c "" hc)).2

theorem hierKey_congr (l1 l2 : List String) (i : Nat)
    (h : l1.take (i + 1) = l2.take (i + 1)) : hierKey l1 i = hierKey l2 i := by
  unfold hierKey
  rw [h]

/-- The heart of C6: a cell the second application would blank is already
blank after the first application (for non-empty separator-free data). -/
theorem second_pass_blank_is_blank (rows : List (List String))
    (hv : ∀ row ∈ rows, ∀ v ∈ row, v ≠ "" ∧ '|' ∉ v.data)
    (j i : Nat) (hj : j < rows.length) (hi : i < (rows.getD j []).length)
    (hb : blankCell (group_data_by_date_and_name rows) j i = true) :
    ((group_data_by_date_and_name rows).getD j []).getD i "" = "" := by
  by_contra hcell
  obtain ⟨hj0, hkeq⟩ := (blank_iff (group_data_by_date_and_name rows) j i).mp hb
  have hj1 : j - 1 < rows.length := by omega
  -- the cell is the unblanked original value
  have hbo : ¬ (blankCell rows j i = true) := by
    intro hbo
    rw [group_data_cell rows j i hj hi, if_pos hbo] at hcell
    exact hcell rfl
  have hcell_val : ((group_data_by_date_and_name rows).getD j []).getD i "" =
      (rows.getD j []).getD i "" := by
    rw [group_data_cell rows j i hj hi, if_neg hbo]
  have hlen_j : ((group_data_by_date_and_name rows).getD j []).length =
      (rows.getD j []).length := group_data_rowlen rows j hj
  have hlen_j1 : ((group_data_by_date_and_name rows).getD (j - 1) []).length =
      (rows.getD (j - 1) []).length := group_data_rowlen rows (j - 1) hj1
  have hbarj := barfree_out rows hv j hj
  have hbarj1 := barfree_out rows hv (j - 1) hj1
  have hbar_take_j : ∀ s ∈ (((group_data_by_date_and_name rows).getD j []).take (i + 1)).map
      String.data, '|' ∉ s := by
    intro s hs
    obtain ⟨v, hvt, rfl⟩ := List.mem_map.mp hs
    exact hbarj v (List.take_subset _ _ hvt)
  have hbar_take_j1 : ∀ s ∈ (((group_data_by_date_and_name rows).getD (j - 1) []).take
      (i + 1)).map String.data, '|' ∉ s := by
    intro s hs
    obtain ⟨v, hvt, rfl⟩ := List.mem_map.mp hs
    exact hbarj1 v (List.take_subset _ _ hvt)
  have hkeq' : barJoin ((((group_data_by_date_and_name rows).getD j []).take (i + 1)).map
      String.data) = barJoin ((((group_data_by_date_and_name rows).getD (j - 1) []).take
      (i + 1)).map String.data) := hkeq
  -- the previous output row extends past column i
  have hnlt : i < ((group_data_by_date_and_name rows).getD (j - 1) []).length := by
    by_contra hge
    have hcount := congrArg (List.count '|') hkeq'
    rw [barJoin_count _ hbar_take_j, barJoin_count _ hbar_take_j1] at hcount
    simp only [List.length_map, List.length_take] at hcount
    have hzero : ((group_data_by_date_and_name rows).getD (j - 1) []).length = 0 ∧ i = 0 := by
      omega
    have hi0 : i = 0 := hzero.2
    subst hi0
    have hnil : (group_data_by_date_and_name rows).getD (j - 1) [] = [] :=
      List.length_eq_zero.mp hzero.1
    rw [hnil] at hkeq'
    have hpos : 0 < ((group_data_by_date_and_name rows).getD j []).length := by omega
    obtain ⟨c, tl, hctl⟩ := List.exists_cons_of_ne_nil (List.length_pos.mp hpos)
    rw [hctl] at hkeq' hcell
    simp only [List.take_cons, List.take_zero, List.map_cons, List.map_nil, barJoin] at hkeq'
    exact hcell (String.ext hkeq')
  -- componentwise equality of the two output rows up to column i
  have e := barJoin_inj_len _ _
    (by
      simp only [List.length_map, List.length_take]
      omega) hbar_take_j hbar_take_j1 hkeq'
  have e' : ((group_data_by_date_and_name rows).getD j []).take (i + 1) =
      ((group_data_by_date_and_name rows).getD (j - 1) []).take (i + 1) :=
    List.map_injective_iff.mpr (fun a b hab => String.ext hab) e
  -- the original keys differ at level i, so some column below i differs
  have hkorig : ¬ (hierKey (rows.getD j []) i = hierKey (rows.getD (j - 1) []) i) := by
    intro hk
    exact hbo ((blank_iff rows j i).mpr ⟨hj0, hk⟩)
  have hnlt_orig : i < (rows.getD (j - 1) []).length := by
    rw [← hlen_j1]
    exact hnlt
  have hexQ : ∃ c, c < i + 1 ∧
      (rows.getD j []).getD c "" ≠ (rows.getD (j - 1) []).getD c "" := by
    by_contra hall
    push_neg at hall
    apply hkorig
    apply hierKey_congr
    apply List.ext_getElem?
    intro c
    by_cases hc : c < i + 1
    · rw [List.getElem?_take_of_lt hc, List.getElem?_take_of_lt hc]
      have hcj : c < (rows.getD j []).length := by omega
      have hcj1 : c < (rows.getD (j - 1) []).length := by omega
      have hceq := hall c hc
      rw [getD_eq_get (rows.getD j []) "" c hcj,
        getD_eq_get (rows.getD (j - 1) []) "" c hcj1] at hceq
      rw [List.getElem?_eq_getElem hcj, List.getElem?_eq_getElem hcj1, hceq]
    · rw [List.getElem?_eq_none (by simp only [List.length_take]; omega),
        List.getElem?_eq_none (by simp only [List.length_take]; omega)]
  -- the least differing column c0
  set c0 := Nat.find hexQ with hc0def
  have hc0 := Nat.find_spec hexQ
  have hc0i : c0 < i + 1 := hc0.1
  have hc0ne : (rows.getD j []).getD c0 "" ≠ (rows.getD (j - 1) []).getD c0 "" := hc0.2
  have hc0j : c0 < (rows.getD j []).length := by omega
  have hc0j1 : c0 < (rows.getD (j - 1) []).length := by omega
  have hbarrowj : ∀ v ∈ rows.getD j [], '|' ∉ v.data :=
    fun v hv' => (hv _ (getD_mem rows j [] hj) v hv').2
  have hbarrowj1 : ∀ v ∈ rows.getD (j - 1) [], '|' ∉ v.data :=
    fun v hv' => (hv _ (getD_mem rows (j - 1) [] hj1) v hv').2
  -- column c0 of row j is not blanked by the first pass
  have notblank : ¬ (blankCell rows j c0 = true) := by
    intro hbc
    obtain ⟨_, hkc0⟩ := (blank_iff rows j c0).mp hbc
    have e2 := (hierKey_eq_iff (rows.getD j []) (rows.getD (j - 1) []) c0
      hc0j hc0j1 hbarrowj hbarrowj1).mp hkc0
    exact hc0ne (getD_take_eq _ _ "" (c0 + 1) c0 (by omega) e2)
  have houtc0 : ((group_data_by_date_and_name rows).getD j []).getD c0 "" =
      (rows.getD j []).getD c0 "" := by
    rw [group_data_cell rows j c0 hj hc0j, if_neg notblank]
  have hcomp : ((group_data_by_date_and_name rows).getD j []).getD c0 "" =
      ((group_data_by_date_and_name rows).getD (j - 1) []).getD c0 "" :=
    getD_take_eq _ _ "" (i + 1) c0 hc0i e'
  have hne0 : (rows.getD j []).getD c0 "" ≠ "" :=
    (hv _ (getD_mem rows j [] hj) _ (getD_mem _ c0 "" hc0j)).1
  have hout1 : ((group_data_by_date_and_name rows).getD (j - 1) []).getD c0 "" =
      if blankCell rows (j - 1) c0 then "" else (rows.getD (j - 1) []).getD c0 "" :=
    group_data_cell rows (j - 1) c0 hj1 hc0j1
  by_cases hb1 : blankCell rows (j - 1) c0 = true
  · rw [hout1, if_pos hb1] at hcomp
    exact hne0 (houtc0 ▸ hcomp)
  · rw [hout1, if_neg hb1] at hcomp
    exact hc0ne (houtc0 ▸ hcomp)

/-- C6 (amended): the Cascading Grouping Transform is idempotent on record
sequences whose field values are all non-empty and free of the join
separator `'|'`. -/
theorem c6_idempotent_amended (rows : List (List String))
    (hv : ∀ row ∈ rows, ∀ v ∈ row, v ≠ "" ∧ '|' ∉ v.data) :
    group_data_by_date_and_name (group_data_by_date_and_name rows) =
      group_data_by_date_and_name rows := by
  apply List.ext_getElem
  · rw [group_data_length, group_data_length]
  · intro j h1 h2
    have hjr : j < rows.length := by
      rw [group_data_length] at h2
      exact h2
    have hjo : j < (group_data_by_date_and_name rows).length := by
      rw [group_data_length]
      exact hjr
    rw [← getD_eq_get _ [] j h1, ← getD_eq_get _ [] j h2]
    apply List.ext_getElem
    · rw [group_data_rowlen _ j hjo]
    · intro i hi1 hi2
      rw [← getD_eq_get _ "" i hi1, ← getD_eq_get _ "" i hi2]
      have hio : i < ((group_data_by_date_and_name rows).getD j []).length := hi2
      have hir : i < (rows.getD j []).length := by
        rw [← group_data_rowlen rows j hjr]
        exact hi2
      rw [group_data_cell (group_data_by_date_and_name rows) j i hjo hio]
      by_cases hb : blankCell (group_data_by_date_and_name rows) j i = true
      · rw [if_pos hb]
        exact (second_pass_blank_is_blank rows hv j i hjr hir hb).symm
      · rw [if_neg hb]

/-- C6 (counterexample): the transform is not idempotent in general.  On
this table (all separator-free, but with one empty original value), the
first application yields row 2 = `["", "x", "q", ...]` with the `"x"`
non-empty, and the second application blanks that `"x"` (rows 1 and 2 of the
output agree on their level-1 join `"|x"`), so the second application
changes the table. -/
theorem c6_idempotence_counterexample :
    ((group_data_by_date_and_name
        [["a", "", "q", "q", "q", "q", "q", "q", "q", "q", "q"],
         ["a", "x", "q", "q", "q", "q", "q", "q", "q", "q", "q"],
         ["", "x", "q", "q", "q", "q", "q", "q", "q", "q", "q"]]).getD 2 []).getD 1 "" = "x" ∧
    ((group_data_by_date_and_name (group_data_by_date_and_name
        [["a", "", "q", "q", "q", "q", "q", "q", "q", "q", "q"],
         ["a", "x", "q", "q", "q", "q", "q", "q", "q", "q", "q"],
         ["", "x", "q", "q", "q", "q", "q", "q", "q", "q", "q"]])).getD 2 []).getD 1 "" = "" ∧
    group_data_by_date_and_name (group_data_by_date_and_name
        [["a", "", "q", "q", "q", "q", "q", "q", "q", "q", "q"],
         ["a", "x", "q", "q", "q", "q", "q", "q", "q", "q", "q"],
         ["", "x", "q", "q", "q", "q", "q", "q", "q", "q", "q"]]) ≠
      group_data_by_date_and_name
        [["a", "", "q", "q", "q", "q", "q", "q", "q", "q", "q"],
         ["a", "x", "q", "q", "q", "q", "q", "q", "q", "q", "q"],
         ["", "x", "q", "q", "q", "q", "q", "q", "q", "q", "q"]] := by
  refine ⟨by decide, by decide, by decide⟩

/-- C6 witness: idempotence on a concrete non-empty separator-free table. -/
theorem c6_idempotent_amended_witness :
    group_data_by_date_and_name (group_data_by_date_and_name
        [["Mon", "x"], ["Mon", "y"]]) =
      group_data_by_date_and_name [["Mon", "x"], ["Mon", "y"]] :=
  c6_idempotent_amended [["Mon", "x"], ["Mon", "y"]] (by decide)

/-! ### Stability of insertion sort (the model of Python / pandas stable
sorting) -/

theorem filter_orderedInsert_neg {α : Type} (r : α → α → Prop) [DecidableRel r]
    (p : α → Bool) (a : α) (h : p a = false) :
    ∀ l : List α, (List.orderedInsert r a l).filter p = l.filter p := by
  intro l
  induction l with
  | nil => simp [List.orderedInsert, h]
  | cons b l ih =>
    by_cases hr : r a b
    · rw [List.orderedInsert_of_le r l hr]
      rw [List.filter_cons, h]
      simp
    · rw [show List.orderedInsert r a (b :: l) = b :: List.orderedInsert r a l from by
        simp [List.orderedInsert, hr]]
      rw [List.filter_cons, List.filter_cons, ih]

theorem filter_orderedInsert_pos {α : Type} (r : α → α → Prop) [DecidableRel r]
    (p : α → Bool) (a : α) (hpa : p a = true) (hlt : ∀ b, ¬ r a b → p b = false) :
    ∀ l : List α, (List.orderedInsert r a l).filter p = a :: l.filter p := by
  intro l
  induction l with
  | nil => simp [List.orderedInsert, hpa]
  | cons b l ih =>
    by_cases hr : r a b
    · rw [List.orderedInsert_of_le r l hr]
      rw [List.filter_cons, hpa]
      simp
    · have hpb := hlt b hr
      rw [show List.orderedInsert r a (b :: l) = b :: List.orderedInsert r a l from by
        simp [List.orderedInsert, hr]]
      rw [List.filter_cons, List.filter_cons, hpb, ih]
      simp

/-- Insertion sort by a key into a linear order is stable: for every key
value, the sorted list restricted to that key is the input restricted to
that key, in the same order. -/
theorem insertionSort_filter_key {α κ : Type} [LinearOrder κ] [DecidableEq κ]
    (key : α → κ) (le : α → α → Prop) [DecidableRel le]
    (hle : ∀ a b, le a b ↔ key a ≤ key b) (k : κ) (rs : List α) :
    (List.insertionSort le rs).filter (fun r => decide (key r = k)) =
      rs.filter (fun r => decide (key r = k)) := by
  induction rs with
  | nil => rfl
  | cons x rs ih =>
    show (List.orderedInsert le x (List.insertionSort le rs)).filter _ = _
    by_cases hx : key x = k
    · rw [filter_orderedInsert_pos le _ x (by simp [hx]) (fun b hnb => by
        have hnot : ¬ (key x ≤ key b) := fun hh => hnb ((hle x b).mpr hh)
        have hblt : key b < key x := lt_of_not_le hnot
        have : key b ≠ k := by
          rw [← hx]
          exact ne_of_lt hblt
        simp [this]), ih, List.filter_cons_of_pos (by simp [hx])]
    · rw [filter_orderedInsert_neg le _ x (by simp [hx]), ih,
        List.filter_cons_of_neg (by simp [hx])]

/-! ### Claim C5: the Weekly Bucketer sort -/

/-- A record with an unparseable date never sorts below one: the first component of its key is `⊤`, which forces everything after it to be `⊤` as well. -/
theorem recordLe_none_none (a b : Record) (hab : recordLe a b)
    (hpa : parse_date a.date = none) : parse_date b.date = none := by
  unfold recordLe recordKey at hab
  simp only [hpa] at hab
  rw [Prod.Lex.le_iff] at hab
  cases hab with
  | inl h => exact absurd h (WithTop.not_top_lt _)
  | inr h =>
    cases hpb : parse_date b.date with
    | none => rfl
    | some d =>
      rw [hpb] at h
      exact absurd h.1.symm WithTop.coe_ne_top

/-- C5: the Weekly Bucketer sort is sorted by (effective date, deceased last
name, deceased first name) with unparseable dates last, is a permutation of
the input, and is stable (per key value, relative input order is kept). -/
theorem c5_weekly_bucketer_sort (rs : List Record) :
    List.Sorted recordLe (sortRecords rs) ∧
    (sortRecords rs).Perm rs ∧
    (∀ (i j : Nat) (hi : i < (sortRecords rs).length) (hj : j < (sortRecords rs).length),
        i ≤ j → parse_date ((sortRecords rs).get ⟨i, hi⟩).date = none →
        parse_date ((sortRecords rs).get ⟨j, hj⟩).date = none) ∧
    (∀ k : (WithTop Int) ×ₗ (String ×ₗ String),
        (sortRecords rs).filter (fun r => decide (recordKey r = k)) =
          rs.filter (fun r => decide (recordKey r = k))) := by
  have hsorted : List.Sorted recordLe (sortRecords rs) :=
    List.sorted_insertionSort recordLe rs
  refine ⟨hsorted, List.perm_insertionSort recordLe rs, ?_, ?_⟩
  · intro i j hi hj hij hpi
    rcases Nat.lt_or_ge j i with hgt | hge
    · omega
    · rcases Nat.eq_or_lt_of_le hge with heq | hlt
      · subst heq
        exact hpi
      · have hrel := List.pairwise_iff_get.mp hsorted ⟨i, hi⟩ ⟨j, hj⟩ hlt
        exact recordLe_none_none _ _ hrel hpi
  · intro k
    exact insertionSort_filter_key recordKey recordLe (fun a b => Iff.rfl) k rs

/-- C5 witness: on a concrete two-record set, the record with unparseable
date sorts last and stability holds for a concrete key. -/
theorem c5_weekly_bucketer_sort_witness :
    parse_date ((sortRecords
        [⟨"Mon", "garbage", "5", "S", "A", "B", "h", "m1", "m2", "r", "t"⟩,
         ⟨"Tue", "01-Jun-25", "5", "S", "C", "D", "h", "m1", "m2", "r", "t"⟩]).get
      ⟨1, by decide⟩).date = none := by
  have h := c5_weekly_bucketer_sort
    [⟨"Mon", "garbage", "5", "S", "A", "B", "h", "m1", "m2", "r", "t"⟩,
     ⟨"Tue", "01-Jun-25", "5", "S", "C", "D", "h", "m1", "m2", "r", "t"⟩]
  exact h.2.2.1 1 1 (by decide) (by decide) (by decide) (by decide)

/-! ### Claim C4: the Month Selector -/

/-- C4: the Month Selector sorts the per-source `(month, year)` estimates by
`(year, month)` ascending, stably (ties keep input order), and returns the
element at 0-based index `⌊N/2⌋`; for the three sources `April2025.csv`,
`may_2025.csv`, `June-2025.csv` it returns month 5, year 2025. -/
theorem c4_month_selector :
    (∀ infos : List (Nat × Nat),
        List.Sorted infoLe (sortInfos infos) ∧
        (sortInfos infos).Perm infos ∧
        (∀ k : Nat ×ₗ Nat,
          (sortInfos infos).filter (fun p => decide (toLex (p.2, p.1) = k)) =
            infos.filter (fun p => decide (toLex (p.2, p.1) = k))) ∧
        (infos ≠ [] →
          find_middle_month infos = (sortInfos infos).get? (infos.length / 2) ∧
          ∃ v, find_middle_month infos = some v)) ∧
    (∀ now : Now, find_middle_month_from_files now
        [⟨"April2025.csv", .ok none⟩, ⟨"may_2025.csv", .ok none⟩,
         ⟨"June-2025.csv", .ok none⟩] = some (5, 2025)) := by
  constructor
  · intro infos
    refine ⟨List.sorted_insertionSort infoLe infos,
      List.perm_insertionSort infoLe infos, ?_, ?_⟩
    · intro k
      exact insertionSort_filter_key (fun p : Nat × Nat => (toLex (p.2, p.1) : Nat ×ₗ Nat))
        infoLe (fun a b => Iff.rfl) k infos
    · intro hne
      have hlen : (sortInfos infos).length = infos.length := by
        simp [sortInfos]
      have hpos : 0 < infos.length := List.length_pos.mpr hne
      have hlt : infos.length / 2 < (sortInfos infos).length := by omega
      exact ⟨rfl, _, List.get?_eq_get hlt⟩
  · intro now
    rfl

/-- C4 witness: the selector applied to the concrete scenario files and to a
concrete estimate list. -/
theorem c4_month_selector_witness :
    find_middle_month_from_files ⟨1, 2000⟩
        [⟨"April2025.csv", .ok none⟩, ⟨"may_2025.csv", .ok none⟩,
         ⟨"June-2025.csv", .ok none⟩] = some (5, 2025) ∧
    find_middle_month [(6, 2025), (4, 2025), (5, 2025)] =
      (sortInfos [(6, 2025), (4, 2025), (5, 2025)]).get? 1 := by
  have h := c4_month_selector
  refine ⟨h.2 ⟨1, 2000⟩, ?_⟩
  exact ((h.1 [(6, 2025), (4, 2025), (5, 2025)]).2.2.2 (by decide)).1

/-! ### Claim C7: display-format round trip -/

set_option maxHeartbeats 2000000 in
/-- All display strings (two-digit day, dash, capitalized month
abbreviation) are rejected by `parse_date` — the display format is not among
its four formats — and are re-parsed by the display format itself exactly
when the day fits the month in the `strptime` default year 1900. -/
theorem display_string_parses : ∀ m' < 12, ∀ d' < 31,
    parse_date (twoDigitStr (d' + 1) ++ "-" ++ monthAbbrevCap (m' + 1)) = none ∧
    parseDisplayDM (twoDigitStr (d' + 1) ++ "-" ++ monthAbbrevCap (m' + 1)) =
      (if d' + 1 ≤ daysInMonth 1900 (m' + 1) then some (m' + 1, d' + 1) else none) := by
  decide

/-- C7 (counterexample): the Weekly Bucketer writes `05-Jun` for June 5,
2025, and the Date Parser returns the unparseable sentinel on it instead of
the original calendar day — none of its four formats accepts the `%d-%b`
display format. -/
theorem c7_roundtrip_counterexample :
    format_date (some ⟨2025, 6, 5⟩) = "05-Jun" ∧
    parse_date (format_date (some ⟨2025, 6, 5⟩)) = none := by
  refine ⟨by decide, by decide⟩

/-- C7 (amended): for every valid effective date, re-parsing the rewritten
date field via the Date Parser yields the unparseable sentinel; re-parsing
with the display format `%d-%b` itself recovers the original day and month,
except for February 29 dates (`strptime` fills in year 1900, which is not a
leap year, so the constructed date is invalid). -/
theorem c7_display_roundtrip (y m d : Nat) (h1 : 1 ≤ m) (h2 : m ≤ 12)
    (hd1 : 1 ≤ d) (hd2 : d ≤ daysInMonth y m) :
    parse_date (format_date (some ⟨y, m, d⟩)) = none ∧
    (d ≤ daysInMonth 1900 m →
      parseDisplayDM (format_date (some ⟨y, m, d⟩)) = some (m, d)) ∧
    (daysInMonth 1900 m < d →
      parseDisplayDM (format_date (some ⟨y, m, d⟩)) = none) := by
  have hd31 : d ≤ 31 := le_trans hd2 (daysInMonth_le y m)
  obtain ⟨m', rfl⟩ : ∃ k, m = k + 1 := ⟨m - 1, by omega⟩
  obtain ⟨d', rfl⟩ : ∃ k, d = k + 1 := ⟨d - 1, by omega⟩
  have key := display_string_parses m' (by omega) d' (by omega)
  have hfmt : format_date (some ⟨y, m' + 1, d' + 1⟩) =
      twoDigitStr (d' + 1) ++ "-" ++ monthAbbrevCap (m' + 1) := rfl
  rw [hfmt]
  refine ⟨key.1, ?_, ?_⟩
  · intro hle
    rw [key.2, if_pos hle]
  · intro hgt
    rw [key.2, if_neg (by omega)]

/-- C7 witness: the amended round trip at June 5, 2025. -/
theorem c7_display_roundtrip_witness :
    parse_date (format_date (some ⟨2025, 6, 5⟩)) = none ∧
    parseDisplayDM (format_date (some ⟨2025, 6, 5⟩)) = some (6, 5) := by
  have h := c7_display_roundtrip 2025 6 5 (by decide) (by decide) (by decide) (by decide)
  exact ⟨h.1, h.2.1 (by decide)⟩

/-! ### Claim C8: relationship normalization -/

/-- C8 (counterexample): the normalization uses Python `str.capitalize`, not
title-casing: for the multi-word relationship `step son` the result is
`Step son`, not `Step Son`. -/
theorem c8_relationship_counterexample :
    clean_relationship "step son" = "Step son" ∧
    clean_relationship "step son" ≠ "Step Son" := by
  refine ⟨by decide, by decide⟩

/-- C8 (amended): normalization capitalizes the relationship value — first
character upper-cased, all remaining characters lower-cased — unless it
lower-cases to `none`, in which case it is unchanged; a multi-word value
does not have every word capitalized. -/
theorem c8_relationship_amended :
    (∀ x : String, pyLower x = "none" → clean_relationship x = x) ∧
    (∀ x : String, pyLower x ≠ "none" → clean_relationship x = pyCapitalize x) ∧
    clean_relationship "step son" = "Step son" ∧
    clean_relationship "None" = "None" ∧
    clean_relationship "nONE" = "nONE" ∧
    clean_relationship "step son" ≠ "Step Son" := by
  refine ⟨?_, ?_, by decide, by decide, by decide, by decide⟩
  · intro x h
    unfold clean_relationship
    rw [if_neg (not_not_intro h)]
  · intro x h
    unfold clean_relationship
    rw [if_pos h]

/-- C8 witness: the amended normalization at a concrete value. -/
theorem c8_relationship_amended_witness :
    clean_relationship "mother" = pyCapitalize "mother" ∧
    clean_relationship "mother" = "Mother" := by
  have h := c8_relationship_amended
  exact ⟨h.2.1 "mother" (by decide), by decide⟩

/-! ### Claim C9: the current-date fallback of the Month Selector -/

/-- C9 (code bug): for a source with no month/year token in its filename,
the current-date fallback fires only when reading the first data row raises
(`except` branch).  A file that reads fine but whose first-row date label
fails the Date Parser — and likewise one whose date column is missing —
keeps `None` for month and year, contradicting the claim that the returned
estimate never has a missing component. -/
theorem c9_fallback_gap :
    extract_month_info_from_filename ⟨3, 2024⟩ ⟨"data.csv", .ok (some "garbage")⟩
      = (none, none) ∧
    extract_month_info_from_filename ⟨3, 2024⟩ ⟨"data.csv", .ok none⟩ = (none, none) ∧
    extract_month_info_from_filename ⟨3, 2024⟩ ⟨"data.csv", .error ()⟩
      = (some 3, some 2024) := by
  refine ⟨rfl, rfl, rfl⟩
